import Mathlib

/-!
Verification development for the message-passing simulation core described by
the repository's specification.  The repository ships only the notebook
`notebooks/intro.ipynb`, which exercises the engine (`neurokernel.core.Module`,
`Manager`, `Connectivity`) without containing its source; the engine components
are therefore modelled from the specification, while the notebook's own code
(the `MyModule` class and the all-to-all `Connectivity` assignment) is embedded
directly.

Graded-potential values (numpy doubles in the source) are modelled as
rationals; spike payloads are finite lists of source indices.
-/

/-- Module identifiers are strings (the notebook's `id` arguments). -/
abbrev ModId := String

/-- Modelled from the spec: the two payload slot kinds, graded potential and
spiking (spec section 3, ConnectivityMap key component `slot kind`). -/
inductive SlotKind where
  | gpot
  | spike
deriving DecidableEq, Repr

/-- Modelled from the spec: the error taxonomy of section 7
(`ConfigurationError`, `InvalidSlotError`, `ModuleFault`, `TickTimeoutError`). -/
inductive NkError where
  | configuration
  | invalidSlot
  | moduleFault (m : ModId) (t : Nat)
  | tickTimeout
deriving DecidableEq, Repr

/-- Modelled from the spec: one directed connectivity edge, the 6-component
key of the sparse relation of spec section 3 together with its weight. -/
structure Edge where
  src : ModId
  srcKind : SlotKind
  srcIdx : Nat
  dst : ModId
  dstKind : SlotKind
  dstIdx : Nat
  weight : ℚ
deriving DecidableEq, Repr

/-- The 6-tuple key of an edge (the ConnectivityMap is keyed by it,
weight excluded). -/
def Edge.key (e : Edge) : ModId × SlotKind × Nat × ModId × SlotKind × Nat :=
  (e.src, e.srcKind, e.srcIdx, e.dst, e.dstKind, e.dstIdx)

/-- Modelled from the spec: a ConnectivityMap is the collection of registered
edges, with at most one entry per key (`keyed by ... → weight`). -/
abbrev CM := List Edge

/-- Declared slot counts of the registered modules: module id paired with
(N_gpot, N_spike). -/
abbrev Env := List (ModId × Nat × Nat)

/-- Slot count of a declaration for a given kind. -/
def slotCount (g s : Nat) : SlotKind → Nat
  | .gpot => g
  | .spike => s

/-- Modelled from the spec: `connect` (spec 4.1) registers one directed edge,
failing with `InvalidSlotError` when either index is out of range for the
referenced module's declared slot counts; an existing entry with the same key
is overwritten (the map is keyed by the 6-tuple).  Unregistered module ids
yield `ConfigurationError`. -/
def connect (env : Env) (cm : CM) (e : Edge) : Except NkError CM :=
  match env.lookup e.src, env.lookup e.dst with
  | some s, some d =>
    if e.srcIdx < slotCount s.1 s.2 e.srcKind ∧ e.dstIdx < slotCount d.1 d.2 e.dstKind then
      .ok (e :: cm.eraseP (fun e2 => decide (e2.key = e.key)))
    else
      .error .invalidSlot
  | _, _ => .error .configuration

/-- Build a ConnectivityMap by a finite sequence of `connect` calls,
failing as soon as one call fails. -/
def buildCM (env : Env) (calls : List Edge) : Except NkError CM :=
  calls.foldlM (fun cm e => connect env cm e) []

/-- Modelled from the spec: `routesFor(srcId)` (spec 4.1) returns every
registered edge whose source module is `srcId`. -/
def routesFor (cm : CM) (srcId : ModId) : List Edge :=
  cm.filter (fun e => decide (e.src = srcId))

/-- The most recent registration for a slot key in a sequence of `connect`
calls: later calls overwrite earlier ones with the same key (the map is
keyed by the 6-tuple). -/
def latestFor : List Edge → (ModId × SlotKind × Nat × ModId × SlotKind × Nat) → Option Edge
  | [], _ => none
  | c :: cs, k =>
    match latestFor cs k with
    | some e => some e
    | none => if c.key = k then some c else none

/-- Modelled from the spec: the Broker's graded-potential routing (spec 4.3).
Destination `dId` (with `dN` gpot input slots) receives, keyed by source
module `s`, a dense vector sized to its gpot input count whose slot `j`
accumulates `weight * sourceOutput[srcIdx]` over every registered
gpot-to-gpot edge from `s` into slot `j`; slots fed by no edge stay `0`. -/
def routeGpot (cm : CM) (getG : ModId → List ℚ) (dId : ModId) (dN : Nat) (s : ModId) :
    List ℚ :=
  (List.range dN).map (fun j =>
    ((cm.filter (fun e =>
        decide (e.src = s ∧ e.srcKind = SlotKind.gpot ∧ e.dst = dId ∧
          e.dstKind = SlotKind.gpot ∧ e.dstIdx = j))).map
      (fun e => e.weight * ((getG s).getD e.srcIdx 0))).sum)

/-- Modelled from the spec: the Broker's spike routing (spec 4.3).
Destination `dId` receives, keyed by source module `s`, the set of its spike
input slot indices fed by a registered spike-to-spike edge from `s` whose
source index fired this tick; with no incoming spike edge it is empty. -/
def routeSpike (cm : CM) (getS : ModId → List Nat) (dId : ModId) (s : ModId) :
    List Nat :=
  (cm.filter (fun e =>
      decide (e.src = s ∧ e.srcKind = SlotKind.spike ∧ e.dst = dId ∧
        e.dstKind = SlotKind.spike))).filterMap
    (fun e => if e.srcIdx ∈ getS s then some e.dstIdx else none)

/-- Modelled from the spec: a module (spec 4.2) exposes its id, slot counts,
initial internal state and a deterministic `step` function receiving the
tick's external stimulus, per-source gpot and spike input buffers and the
internal state, producing output payloads and the next internal state. -/
structure ModuleDef (σ : Type) where
  id : ModId
  nGpot : Nat
  nSpike : Nat
  init : σ
  step : List ℚ → (ModId → List ℚ) → (ModId → List Nat) → σ →
    List ℚ × List Nat × σ

/-- Modelled from the spec: a frozen configuration (spec 4.4, `Configured`):
the registered modules, the finalized ConnectivityMap and the per-tick
external input stimulus. -/
structure SimConfig (σ : Type) where
  mods : List (ModuleDef σ)
  cm : CM
  stim : Nat → ModId → List ℚ

/-- Modelled from the spec: the Manager-owned state between ticks: every module's
internal state plus the per-destination, per-source input buffers assembled
by the Broker for the next `step` call. -/
structure SimState (σ : Type) where
  states : ModId → Option σ
  inG : ModId → ModId → List ℚ
  inS : ModId → ModId → List Nat

/-- Recorded outcome of one tick: every module's emitted payloads in
registration order, plus the module faults reported to the Manager. -/
structure TickRecord where
  outs : List (ModId × List ℚ × List Nat)
  faults : List ModId
deriving DecidableEq, Repr

/-- Declared gpot slot count of a registered module id (0 if unknown). -/
def nGpotOf {σ : Type} (cfg : SimConfig σ) (i : ModId) : Nat :=
  ((cfg.mods.find? (fun m => decide (m.id = i))).map (fun m => m.nGpot)).getD 0

/-- Modelled from the spec: the state entering the first tick — every module
at its initial internal state, every input buffer empty of the correct shape
(zero-filled gpot vector, empty spike set). -/
def initState {σ : Type} (cfg : SimConfig σ) : SimState σ :=
  { states := fun i => (cfg.mods.find? (fun m => decide (m.id = i))).map (fun m => m.init)
    inG := fun d _ => List.replicate (nGpotOf cfg d) 0
    inS := fun _ _ => [] }

/-- Modelled from the spec: one module's contribution to tick `t`.  A module
made to fault by `F` has its output treated as empty/zero and its state left
untouched (spec section 7, `ModuleFault`); otherwise its `step` runs on the
buffers assembled for it. -/
def moduleOut {σ : Type} (cfg : SimConfig σ) (F : ModId → Nat → Bool) (t : Nat)
    (st : SimState σ) (m : ModuleDef σ) : List ℚ × List Nat × σ :=
  if F m.id t then
    (List.replicate m.nGpot 0, [], (st.states m.id).getD m.init)
  else
    m.step (cfg.stim t m.id) (st.inG m.id) (st.inS m.id) ((st.states m.id).getD m.init)

/-- The tick's published outputs, keyed by module id, computed in the order
given by the schedule `ord` (the spec's parallel cohort, linearised). -/
def outsOf {σ : Type} (cfg : SimConfig σ) (ord : List (ModuleDef σ))
    (F : ModId → Nat → Bool) (t : Nat) (st : SimState σ) :
    List (ModId × (List ℚ × List Nat × σ)) :=
  ord.map (fun m => (m.id, moduleOut cfg F t st m))

/-- Modelled from the spec: one full tick (spec section 2): every scheduled
module steps on the buffers assembled for this tick, then the Broker expands
the outputs through the ConnectivityMap into fresh per-destination buffers;
the record keeps every module's payloads in registration order together with
the tick's reported faults. -/
def tickOrd {σ : Type} (cfg : SimConfig σ) (ord : List (ModuleDef σ))
    (F : ModId → Nat → Bool) (t : Nat) (st : SimState σ) :
    SimState σ × TickRecord :=
  let outs := outsOf cfg ord F t st
  let getG : ModId → List ℚ := fun s => ((outs.lookup s).map (fun o => o.1)).getD []
  let getS : ModId → List Nat := fun s => ((outs.lookup s).map (fun o => o.2.1)).getD []
  (⟨fun i => match outs.lookup i with
      | some o => some o.2.2
      | none => st.states i,
    fun d s2 => routeGpot cfg.cm getG d (nGpotOf cfg d) s2,
    fun d s2 => routeSpike cfg.cm getS d s2⟩,
   ⟨cfg.mods.map (fun m => (m.id, getG m.id, getS m.id)),
    (cfg.mods.filter (fun m => F m.id t)).map (fun m => m.id)⟩)

/-- Modelled from the spec: `n` consecutive ticks starting at tick number
`t`, scheduling tick `s` in the order `ords s`, threading the state and
collecting the tick records. -/
def runAux {σ : Type} (cfg : SimConfig σ) (ords : Nat → List (ModuleDef σ))
    (F : ModId → Nat → Bool) : Nat → Nat → SimState σ → SimState σ × List TickRecord
  | _, 0, st => (st, [])
  | t, n + 1, st =>
    let p := tickOrd cfg (ords t) F t st
    let q := runAux cfg ords F (t + 1) n p.1
    (q.1, p.2 :: q.2)

/-- No fault injection. -/
def noFaults : ModId → Nat → Bool := fun _ _ => false

/-- Modelled from the spec: `start(steps=k)` (spec 4.4) — drive exactly `k`
ticks from the initial state in registration order, numbering ticks from 1. -/
def run {σ : Type} (cfg : SimConfig σ) (F : ModId → Nat → Bool) (k : Nat) :
    SimState σ × List TickRecord :=
  runAux cfg (fun _ => cfg.mods) F 1 k (initState cfg)

/-- The spec's example-scenario module A (spec section 8): one gpot slot, no
spike slots, `step` always emits the constant output `[0.5]`. -/
def modA : ModuleDef Unit :=
  ⟨"A", 1, 0, (), fun _ _ _ s => ([(1 : ℚ) / 2], [], s)⟩

/-- The spec's example-scenario module B: one gpot slot, no spike slots,
`step` emits `[0]`. -/
def modB : ModuleDef Unit :=
  ⟨"B", 1, 0, (), fun _ _ _ s => ([(0 : ℚ)], [], s)⟩

/-- The example-scenario configuration: modules A and B, a single connection
from A's gpot slot 0 to B's gpot slot 0 at weight 1, no external stimulus. -/
def cfgC1 : SimConfig Unit :=
  ⟨[modA, modB], [⟨"A", SlotKind.gpot, 0, "B", SlotKind.gpot, 0, 1⟩], fun _ _ => []⟩

/-- The gpot input buffer keyed by A that B's `step` receives on tick `t`
(the state entering tick `t`, i.e. after `t - 1` completed ticks). -/
def bInputAtTick (t : Nat) : List ℚ :=
  (runAux cfgC1 (fun _ => cfgC1.mods) noFaults 1 (t - 1) (initState cfgC1)).1.inG "B" "A"

/-- An unconnected two-module configuration (modules A and B, empty
ConnectivityMap), used for the fault-isolation analysis. -/
def cfgC6 : SimConfig Unit :=
  ⟨[modA, modB], [], fun _ _ => []⟩

/-- Modelled from the spec: for the timeout analysis (spec section 5) a
module is abstracted to its id and the time its `step` takes to return,
`none` meaning it never returns within any deadline. -/
structure TimedModule where
  id : ModId
  duration : Option Nat
deriving DecidableEq, Repr

/-- Modelled from the spec: one tick under a per-tick deadline — the Broker
waits for every producer and surfaces `TickTimeoutError` unless every module
returns within the deadline (spec 4.3). -/
def tickTimed (deadline : Nat) (mods : List TimedModule) : Except NkError Unit :=
  if mods.all (fun m =>
      match m.duration with
      | some d2 => decide (d2 ≤ deadline)
      | none => false) then
    .ok ()
  else
    .error .tickTimeout

/-- Modelled from the spec: `start(steps)` under the per-tick deadline —
drives the requested ticks sequentially, halting the run and surfacing the
error as soon as a tick times out; returns the number of completed ticks. -/
def startTimed (deadline : Nat) (mods : List TimedModule) : Nat → Except NkError Nat
  | 0 => .ok 0
  | n + 1 =>
    match tickTimed deadline mods with
    | .ok _ => (startTimed deadline mods n).map (fun c => c + 1)
    | .error e => .error e

/-- Modelled from the spec: the observable scheduling events of one tick
(spec section 5): a module starting its `step`, a module publishing its
outputs, the post-step synchronization barrier, the Broker starting its
routing pass, and the delivery of a destination's assembled buffers. -/
inductive Ev where
  | stepStart : ModId → Nat → Ev
  | published : ModId → Nat → Ev
  | barrier : Nat → Ev
  | routeStart : Nat → Ev
  | delivered : ModId → Nat → Ev
deriving DecidableEq, Repr

/-- Modelled from the spec: the event order of one tick `t` (spec sections 2
and 5): all scheduled modules start and publish (the parallel cohort), the
barrier is reached once every producer has published, the Broker then routes,
and finally each destination's buffers for the tick are delivered. -/
def tickTrace (ids : List ModId) (t : Nat) : List Ev :=
  ids.map (fun m => Ev.stepStart m t) ++ ids.map (fun m => Ev.published m t) ++
    (Ev.barrier t :: Ev.routeStart t :: ids.map (fun m => Ev.delivered m t))

/-- Modelled from the spec: the Manager's event trace for `n` ticks
(numbered 0 to n-1), one tick's block after another. -/
def managerTrace (ids : List ModId) (n : Nat) : List Ev :=
  (List.range n).flatMap (tickTrace ids)

/-- Event `a` occurs before event `b` in the trace: the trace splits with an
occurrence of `a` strictly left of an occurrence of `b`. -/
def Precedes (tr : List Ev) (a b : Ev) : Prop :=
  ∃ l1 l2, tr = l1 ++ l2 ∧ a ∈ l1 ∧ b ∈ l2

/-- The notebook's `MyModule` data (cell 7): `gpot_data` is a numpy double
array (modelled as rationals) and `spike_data` an integer array. -/
structure MyModule where
  gpot_data : List ℚ
  spike_data : List ℤ
deriving DecidableEq, Repr

/-- The notebook's `N_gpot` property: the length of `gpot_data`. -/
def MyModule.N_gpot (m : MyModule) : Nat :=
  m.gpot_data.length

/-- The notebook's `N_spike` property: the length of `spike_data`. -/
def MyModule.N_spike (m : MyModule) : Nat :=
  m.spike_data.length

/-- The notebook's `MyModule.__init__`: `gpot_data = np.zeros(N_gpot)` and
`spike_data = np.zeros(N_spike)`. -/
def mkMyModule (ng ns : Nat) : MyModule :=
  ⟨List.replicate ng 0, List.replicate ns 0⟩

/-- A module's combined `all` slot space (notebook cell 12): the
concatenation of its gpot slots followed by its spike slots. -/
def allSlotCount (m : MyModule) : Nat :=
  m.N_gpot + m.N_spike

/-- The notebook's all-to-all assignment `conn[m0.id, all, :, m1.id, all, :]
= np.ones(...)` (cell 12): every pair of a source `all` slot and a
destination `all` slot, each carrying the matrix entry as weight. -/
def connAllAssign (m0 m1 : MyModule) (mat : Nat → Nat → ℚ) :
    List (Nat × Nat × ℚ) :=
  (List.range (allSlotCount m0)).flatMap (fun i =>
    (List.range (allSlotCount m1)).map (fun j => (i, j, mat i j)))

/-- The notebook's `m0 = MyModule(2, 4, ...)` (cell 10). -/
def m0 : MyModule := mkMyModule 2 4

/-- The notebook's `m1 = MyModule(5, 10, ...)` (cell 10). -/
def m1 : MyModule := mkMyModule 5 10

/-- Claim C9: a `MyModule` constructed with arguments `(ng, ns)` reports
`N_gpot = ng` and `N_spike = ns` (the lengths of its data arrays), and both
arrays are initialized to all zeros. -/
theorem c9_mymodule_init (ng ns : Nat) :
    (mkMyModule ng ns).N_gpot = ng ∧ (mkMyModule ng ns).N_spike = ns ∧
    (mkMyModule ng ns).gpot_data = List.replicate ng 0 ∧
    (mkMyModule ng ns).spike_data = List.replicate ns 0 := by
  simp [mkMyModule, MyModule.N_gpot, MyModule.N_spike]

/-- Claim C10: the notebook's all-to-all assignment over the combined `all`
slot spaces of `m0 = MyModule(2, 4)` and `m1 = MyModule(5, 10)` connects
exactly the 90 = 6 * 15 source-to-destination slot pairs of the ones matrix
of shape `(m0.N_gpot + m0.N_spike, m1.N_gpot + m1.N_spike)`, each with
weight 1. -/
theorem c10_all_to_all :
    allSlotCount m0 = m0.N_gpot + m0.N_spike ∧ allSlotCount m0 = 6 ∧
    allSlotCount m1 = m1.N_gpot + m1.N_spike ∧ allSlotCount m1 = 15 ∧
    (connAllAssign m0 m1 (fun _ _ => 1)).length = 90 ∧
    (connAllAssign m0 m1 (fun _ _ => 1)).Nodup ∧
    (∀ p ∈ connAllAssign m0 m1 (fun _ _ => 1),
      p.1 < 6 ∧ p.2.1 < 15 ∧ p.2.2 = 1) ∧
    (∀ i ∈ List.range 6, ∀ j ∈ List.range 15,
      (i, j, (1 : ℚ)) ∈ connAllAssign m0 m1 (fun _ _ => 1)) := by
  decide

/-- Claim C7: a module configured to never return from `step` within the
per-tick deadline makes `start(steps=1)` surface `TickTimeoutError` to the
Manager, halting the run rather than proceeding. -/
theorem c7_timeout (deadline : Nat) (mods : List TimedModule) (m : TimedModule)
    (hm : m ∈ mods) (hnever : m.duration = none) :
    startTimed deadline mods 1 = .error .tickTimeout := by
  have htick : tickTimed deadline mods = .error .tickTimeout := by
    unfold tickTimed
    rw [if_neg]
    intro hall
    rw [List.all_eq_true] at hall
    have hmf := hall m hm
    rw [hnever] at hmf
    simp at hmf
  simp [startTimed, htick]

/-- Witness for C7: a one-module configuration whose module never returns
times out on `start(steps=1)`. -/
theorem c7_timeout_witness :
    startTimed 10 [⟨"A", none⟩] 1 = .error .tickTimeout :=
  c7_timeout 10 [⟨"A", none⟩] ⟨"A", none⟩ (List.mem_singleton.mpr rfl) rfl

/-- Claim C4: `connect` fails with `InvalidSlotError` exactly when the source
or destination index is out of range for the referenced module's declared
slot counts; in particular a gpot source index 5 on a module declaring
`N_gpot = 2` fails with `InvalidSlotError` at build time. -/
theorem c4_connect_invalid_slot :
    (∀ (env : Env) (cm : CM) (e : Edge) (sg ss dg ds : Nat),
      env.lookup e.src = some (sg, ss) → env.lookup e.dst = some (dg, ds) →
      (connect env cm e = .error .invalidSlot ↔
        ¬(e.srcIdx < slotCount sg ss e.srcKind ∧
          e.dstIdx < slotCount dg ds e.dstKind))) ∧
    connect [("A", 2, 0), ("B", 1, 0)] []
      ⟨"A", SlotKind.gpot, 5, "B", SlotKind.gpot, 0, 1⟩ = .error .invalidSlot := by
  constructor
  · intro env cm e sg ss dg ds hs hd
    simp only [connect, hs, hd]
    by_cases hcond : e.srcIdx < slotCount sg ss e.srcKind ∧
        e.dstIdx < slotCount dg ds e.dstKind
    · simp [hcond]
    · simp [hcond]
  · rfl

/-- Witness for C4: the general criterion instantiated at the spec's
topology-validation scenario. -/
theorem c4_connect_invalid_slot_witness :
    connect [("A", 2, 0), ("B", 1, 0)] []
        ⟨"A", SlotKind.gpot, 5, "B", SlotKind.gpot, 0, 1⟩ = .error .invalidSlot ↔
      ¬(5 < slotCount 2 0 SlotKind.gpot ∧ 0 < slotCount 1 0 SlotKind.gpot) :=
  c4_connect_invalid_slot.1 [("A", 2, 0), ("B", 1, 0)] []
    ⟨"A", SlotKind.gpot, 5, "B", SlotKind.gpot, 0, 1⟩ 2 0 1 0 (by decide) (by decide)

/-- Claim C5: a destination with no registered incoming edge for a slot kind
receives an empty input buffer of the correct shape — a zero-filled gpot
vector sized to its gpot input count, or an empty spike set — never an
absent buffer (the routing functions are total). -/
theorem c5_missing_inputs (cm : CM) (getG : ModId → List ℚ) (getS : ModId → List Nat)
    (dId : ModId) (dN : Nat) (s : ModId) :
    ((∀ e ∈ cm, ¬(e.dst = dId ∧ e.dstKind = SlotKind.gpot)) →
      routeGpot cm getG dId dN s = List.replicate dN 0) ∧
    ((∀ e ∈ cm, ¬(e.dst = dId ∧ e.dstKind = SlotKind.spike)) →
      routeSpike cm getS dId s = []) := by
  constructor
  · intro h
    have hf : ∀ j : Nat, cm.filter (fun e =>
        decide (e.src = s ∧ e.srcKind = SlotKind.gpot ∧ e.dst = dId ∧
          e.dstKind = SlotKind.gpot ∧ e.dstIdx = j)) = [] := by
      intro j
      rw [List.filter_eq_nil_iff]
      intro e he hp
      rw [decide_eq_true_eq] at hp
      exact h e he ⟨hp.2.2.1, hp.2.2.2.1⟩
    simp only [routeGpot, hf, List.map_nil, List.sum_nil, List.map_const',
      List.length_range]
  · intro h
    have hf : cm.filter (fun e =>
        decide (e.src = s ∧ e.srcKind = SlotKind.spike ∧ e.dst = dId ∧
          e.dstKind = SlotKind.spike)) = [] := by
      rw [List.filter_eq_nil_iff]
      intro e he hp
      rw [decide_eq_true_eq] at hp
      exact h e he ⟨hp.2.2.1, hp.2.2.2⟩
    simp only [routeSpike, hf, List.filterMap_nil]

/-- Witness for C5: a map whose only edge targets module C leaves module B
with the zero-filled gpot vector and the empty spike set. -/
theorem c5_missing_inputs_witness :
    routeGpot [⟨"A", SlotKind.gpot, 0, "C", SlotKind.gpot, 0, 1⟩]
        (fun _ => [1]) "B" 2 "A" = List.replicate 2 0 ∧
    routeSpike [⟨"A", SlotKind.gpot, 0, "C", SlotKind.gpot, 0, 1⟩]
        (fun _ => [0]) "B" "A" = [] :=
  ⟨(c5_missing_inputs [⟨"A", SlotKind.gpot, 0, "C", SlotKind.gpot, 0, 1⟩]
      (fun _ => [1]) (fun _ => [0]) "B" 2 "A").1 (by decide),
   (c5_missing_inputs [⟨"A", SlotKind.gpot, 0, "C", SlotKind.gpot, 0, 1⟩]
      (fun _ => [1]) (fun _ => [0]) "B" 2 "A").2 (by decide)⟩

/-- Claim C1: in the spec's example scenario (A and B with one gpot slot
each, A's gpot slot 0 connected to B's gpot slot 0 at weight 1, A's `step`
constantly emitting `[0.5]`), a 3-tick run hands B the gpot input buffer
keyed by A equal to `[0.0]` on tick 1 and `[0.5]` on ticks 2 and 3. -/
theorem c1_example_scenario :
    bInputAtTick 1 = [0] ∧ bInputAtTick 2 = [1 / 2] ∧ bInputAtTick 3 = [1 / 2] := by
  refine ⟨?_, ?_, ?_⟩ <;>
    simp [bInputAtTick, runAux, tickOrd, outsOf, moduleOut, initState, cfgC1, modA, modB,
      nGpotOf, routeGpot, routeSpike, noFaults, List.lookup, List.range_succ,
      List.filter, Edge.key]

/-- Helper for C2: the most recent registration for a key is one of the
calls and carries that key. -/
theorem latestFor_mem :
    ∀ (cs : List Edge) (k : ModId × SlotKind × Nat × ModId × SlotKind × Nat) (e : Edge),
      latestFor cs k = some e → e ∈ cs ∧ e.key = k := by
  intro cs
  induction cs with
  | nil =>
    intro k e h
    exact absurd h (by simp [latestFor])
  | cons c cs2 ih =>
    intro k e h
    simp only [latestFor] at h
    cases hcs : latestFor cs2 k with
    | some x =>
      simp only [hcs] at h
      injection h with h2
      rw [h2] at hcs
      obtain ⟨h1, h3⟩ := ih k e hcs
      exact ⟨List.mem_cons_of_mem _ h1, h3⟩
    | none =>
      simp only [hcs] at h
      by_cases hck : c.key = k
      · rw [if_pos hck] at h
        injection h with h2
        rw [← h2]
        exact ⟨List.mem_cons_self _ _, hck⟩
      · rw [if_neg hck] at h
        exact absurd h (by simp)

/-- Helper for C2: a sequence of calls has no most recent registration for a
key exactly when no call registers that key. -/
theorem latestFor_none_iff :
    ∀ (cs : List Edge) (k : ModId × SlotKind × Nat × ModId × SlotKind × Nat),
      latestFor cs k = none ↔ ∀ c ∈ cs, c.key ≠ k := by
  intro cs
  induction cs with
  | nil =>
    intro k
    simp [latestFor]
  | cons c cs2 ih =>
    intro k
    simp only [latestFor]
    cases hcs : latestFor cs2 k with
    | some x =>
      obtain ⟨hx1, hx2⟩ := latestFor_mem cs2 k x hcs
      constructor
      · intro h
        exact absurd h (by simp)
      · intro hall
        exact absurd hx2 (hall x (List.mem_cons_of_mem _ hx1))
    | none =>
      by_cases hck : c.key = k
      · rw [if_pos hck]
        constructor
        · intro h
          exact absurd h (by simp)
        · intro hall
          exact absurd hck (hall c (List.mem_cons_self _ _))
      · rw [if_neg hck]
        constructor
        · intro _ c2 hc2
          rcases List.mem_cons.mp hc2 with rfl | hc3
          · exact hck
          · exact (ih k).mp hcs c2 hc3
        · intro _
          rfl

/-- Helper for C2: when the map's keys are distinct, erasing a key removes
exactly the entries carrying it. -/
theorem eraseP_key_mem :
    ∀ (cm0 : CM), (cm0.map Edge.key).Nodup →
      ∀ (k : ModId × SlotKind × Nat × ModId × SlotKind × Nat) (e : Edge),
        e ∈ cm0.eraseP (fun e2 => decide (e2.key = k)) ↔ e ∈ cm0 ∧ e.key ≠ k := by
  intro cm0
  induction cm0 with
  | nil =>
    intro _ k e
    simp
  | cons a l ih =>
    intro hnd k e
    rw [List.map_cons] at hnd
    by_cases hak : a.key = k
    · rw [List.eraseP_cons_of_pos (l := l) (by simp [hak])]
      constructor
      · intro he
        refine ⟨List.mem_cons_of_mem _ he, fun hek => ?_⟩
        have hmem : e.key ∈ l.map Edge.key := List.mem_map_of_mem _ he
        rw [hek, ← hak] at hmem
        exact (List.nodup_cons.mp hnd).1 hmem
      · rintro ⟨he, hek⟩
        rcases List.mem_cons.mp he with rfl | he2
        · exact absurd hak hek
        · exact he2
    · rw [List.eraseP_cons_of_neg (l := l) (by simp [hak])]
      rw [List.mem_cons, List.mem_cons, ih (List.nodup_cons.mp hnd).2 k e]
      constructor
      · rintro (rfl | ⟨he, hek⟩)
        · exact ⟨Or.inl rfl, hak⟩
        · exact ⟨Or.inr he, hek⟩
      · rintro ⟨rfl | he, hek⟩
        · exact Or.inl rfl
        · exact Or.inr ⟨he, hek⟩

/-- Helper for C2: the one-step equivalence of the build invariant — a call
`c` followed by calls `cs` reaches an entry either through the most recent
registration among `c :: cs` or untouched from the accumulator. -/
theorem latest_step_equiv (c : Edge) (cs : List Edge) (cm0 : CM) (e : Edge) :
    (latestFor cs e.key = some e ∨
      ((e = c ∨ (e ∈ cm0 ∧ e.key ≠ c.key)) ∧ ∀ c2 ∈ cs, c2.key ≠ e.key)) ↔
    (latestFor (c :: cs) e.key = some e ∨
      (e ∈ cm0 ∧ ∀ c2 ∈ c :: cs, c2.key ≠ e.key)) := by
  cases hcs : latestFor cs e.key with
  | some x =>
    obtain ⟨hx1, hx2⟩ := latestFor_mem cs e.key x hcs
    have hnall : ¬(∀ c2 ∈ cs, c2.key ≠ e.key) := fun hall => hall x hx1 hx2
    have hcons : latestFor (c :: cs) e.key = some x := by
      simp [latestFor, hcs]
    rw [hcons]
    constructor
    · rintro (h | ⟨_, hall⟩)
      · exact Or.inl h
      · exact absurd hall hnall
    · rintro (h | ⟨_, hall⟩)
      · exact Or.inl h
      · exact absurd (fun c2 hc2 => hall c2 (List.mem_cons_of_mem _ hc2)) hnall
  | none =>
    have hall : ∀ c2 ∈ cs, c2.key ≠ e.key := (latestFor_none_iff cs e.key).mp hcs
    have hcons : latestFor (c :: cs) e.key =
        if c.key = e.key then some c else none := by
      simp [latestFor, hcs]
    rw [hcons]
    by_cases hck : c.key = e.key
    · rw [if_pos hck]
      constructor
      · rintro (h | ⟨he, _⟩)
        · exact absurd h (by simp)
        · rcases he with rfl | ⟨_, hne⟩
          · exact Or.inl rfl
          · exact absurd hck.symm hne
      · rintro (h | ⟨_, hall2⟩)
        · injection h with h2
          exact Or.inr ⟨Or.inl h2.symm, hall⟩
        · exact absurd hck (hall2 c (List.mem_cons_self _ _))
    · rw [if_neg hck]
      constructor
      · rintro (h | ⟨he, _⟩)
        · exact absurd h (by simp)
        · rcases he with rfl | ⟨hm, _⟩
          · exact absurd rfl hck
          · refine Or.inr ⟨hm, fun c2 hc2 => ?_⟩
            rcases List.mem_cons.mp hc2 with rfl | hc3
            · exact hck
            · exact hall c2 hc3
      · rintro (h | ⟨hm, _⟩)
        · exact absurd h (by simp)
        · exact Or.inr ⟨Or.inr ⟨hm, fun h2 => hck h2.symm⟩, hall⟩

/-- Helper for C2: invariant of the build fold — an entry of the result is
either the most recent registration for its key among the calls, or an
accumulator entry whose key no call registers. -/
theorem buildCM_latest (env : Env) :
    ∀ (calls : List Edge) (cm0 cmf : CM),
      List.foldlM (fun cm e => connect env cm e) cm0 calls = Except.ok cmf →
      (cm0.map Edge.key).Nodup →
      (∀ e, e ∈ cmf ↔ latestFor calls e.key = some e ∨
        (e ∈ cm0 ∧ ∀ c ∈ calls, c.key ≠ e.key)) ∧
      (cmf.map Edge.key).Nodup := by
  intro calls
  induction calls with
  | nil =>
    intro cm0 cmf h hnd0
    have h2 : Except.ok cm0 = Except.ok cmf := h
    injection h2 with h3
    subst h3
    refine ⟨fun e => ?_, hnd0⟩
    simp [latestFor]
  | cons c cs ih =>
    intro cm0 cmf h hnd0
    rw [List.foldlM_cons] at h
    cases hconn : connect env cm0 c with
    | error err =>
      rw [hconn] at h
      exact absurd h (by simp [Bind.bind, Except.bind])
    | ok cm1 =>
      rw [hconn] at h
      replace h : List.foldlM (fun cm e => connect env cm e) cm1 cs = Except.ok cmf := h
      have hcm1 : cm1 = c :: cm0.eraseP (fun e2 => decide (e2.key = c.key)) := by
        unfold connect at hconn
        split at hconn
        · split at hconn
          · injection hconn with h1
            rw [← h1]
          · exact absurd hconn (by simp)
        · exact absurd hconn (by simp)
      have hnd_er : ((cm0.eraseP (fun e2 => decide (e2.key = c.key))).map Edge.key).Nodup :=
        ((List.eraseP_sublist cm0).map Edge.key).nodup hnd0
      have hnd1 : (cm1.map Edge.key).Nodup := by
        rw [hcm1, List.map_cons, List.nodup_cons]
        refine ⟨fun hin => ?_, hnd_er⟩
        rcases List.mem_map.mp hin with ⟨e2, he2, hke⟩
        exact ((eraseP_key_mem cm0 hnd0 c.key e2).mp he2).2 hke
      obtain ⟨hmem, hnd⟩ := ih cm1 cmf h hnd1
      refine ⟨fun e => ?_, hnd⟩
      rw [hmem e]
      have hre : e ∈ cm1 ↔ e = c ∨ (e ∈ cm0 ∧ e.key ≠ c.key) := by
        rw [hcm1, List.mem_cons, eraseP_key_mem cm0 hnd0 c.key e]
      rw [hre]
      exact latest_step_equiv c cs cm0 e

/-- Counterexample for C2: a successful build in which the same slot key is
registered twice — both `connect` calls succeed, yet the earlier registered
edge (source "A") has been overwritten and is omitted from `routesFor "A"`,
refuting the round-trip as claimed over arbitrary successful builds. -/
theorem c2_routesFor_counterexample :
    buildCM [("A", 1, 0), ("B", 1, 0)]
        [⟨"A", SlotKind.gpot, 0, "B", SlotKind.gpot, 0, 1⟩,
         ⟨"A", SlotKind.gpot, 0, "B", SlotKind.gpot, 0, 0⟩] =
      Except.ok [⟨"A", SlotKind.gpot, 0, "B", SlotKind.gpot, 0, 0⟩] ∧
    (⟨"A", SlotKind.gpot, 0, "B", SlotKind.gpot, 0, 1⟩ : Edge) ∈
      [(⟨"A", SlotKind.gpot, 0, "B", SlotKind.gpot, 0, 1⟩ : Edge),
       ⟨"A", SlotKind.gpot, 0, "B", SlotKind.gpot, 0, 0⟩] ∧
    (⟨"A", SlotKind.gpot, 0, "B", SlotKind.gpot, 0, 1⟩ : Edge).src = "A" ∧
    (⟨"A", SlotKind.gpot, 0, "B", SlotKind.gpot, 0, 1⟩ : Edge) ∉
      routesFor [⟨"A", SlotKind.gpot, 0, "B", SlotKind.gpot, 0, 0⟩] "A" :=
  ⟨rfl, by decide, rfl, by decide⟩

/-- Claim C2 (amended): for every ConnectivityMap built by a finite sequence
of successful `connect` calls, `routesFor(srcId)` returns, with no duplicate
entries, exactly the edges with source `srcId` that are the most recent
registration for their slot key — earlier same-key registrations are
overwritten and therefore omitted. -/
theorem c2_routesFor_latest (env : Env) (calls : List Edge) (cm : CM)
    (hbuild : buildCM env calls = Except.ok cm) (srcId : ModId) :
    (routesFor cm srcId).Nodup ∧
    ∀ e, e ∈ routesFor cm srcId ↔ e.src = srcId ∧ latestFor calls e.key = some e := by
  obtain ⟨hmem, hnd⟩ := buildCM_latest env calls [] cm hbuild (by simp)
  refine ⟨(hnd.of_map).filter _, fun e => ?_⟩
  rw [routesFor, List.mem_filter, decide_eq_true_eq, hmem e]
  constructor
  · rintro ⟨h1 | ⟨h0, _⟩, h2⟩
    · exact ⟨h2, h1⟩
    · exact absurd h0 (List.not_mem_nil e)
  · rintro ⟨h2, h1⟩
    exact ⟨Or.inl h1, h2⟩

/-- Witness for C2: the amended round-trip at the duplicate-key build of the
counterexample — `routesFor "A"` holds exactly the surviving most recent
registration. -/
theorem c2_routesFor_latest_witness :
    (routesFor [⟨"A", SlotKind.gpot, 0, "B", SlotKind.gpot, 0, 0⟩] "A").Nodup ∧
    ∀ e, e ∈ routesFor [⟨"A", SlotKind.gpot, 0, "B", SlotKind.gpot, 0, 0⟩] "A" ↔
      e.src = "A" ∧
        latestFor [⟨"A", SlotKind.gpot, 0, "B", SlotKind.gpot, 0, 1⟩,
          ⟨"A", SlotKind.gpot, 0, "B", SlotKind.gpot, 0, 0⟩] e.key = some e :=
  c2_routesFor_latest [("A", 1, 0), ("B", 1, 0)]
    [⟨"A", SlotKind.gpot, 0, "B", SlotKind.gpot, 0, 1⟩,
     ⟨"A", SlotKind.gpot, 0, "B", SlotKind.gpot, 0, 0⟩]
    [⟨"A", SlotKind.gpot, 0, "B", SlotKind.gpot, 0, 0⟩] rfl "A"

/-- Helper for C8: a tick-indexed concatenation splits around any tick. -/
theorem range_flatMap_decomp (f : Nat → List Ev) {n t : Nat} (ht : t < n) :
    (List.range n).flatMap f =
      (List.range t).flatMap f ++ f t ++
        ((List.range (n - t - 1)).map (fun i => t + 1 + i)).flatMap f := by
  have hn : n = t + 1 + (n - t - 1) := by omega
  conv_lhs => rw [hn, List.range_add (t + 1) (n - t - 1)]
  rw [List.flatMap_append, List.range_succ, List.flatMap_append]
  simp [List.append_assoc]

/-- Helper for C8: an event of an earlier tick's block precedes an event of a
later tick's block. -/
theorem precedes_flatMap_lt (f : Nat → List Ev) {n t1 t2 : Nat} {a b : Ev}
    (h12 : t1 < t2) (h2 : t2 < n) (ha : a ∈ f t1) (hb : b ∈ f t2) :
    Precedes ((List.range n).flatMap f) a b := by
  refine ⟨(List.range t2).flatMap f,
    f t2 ++ ((List.range (n - t2 - 1)).map (fun i => t2 + 1 + i)).flatMap f, ?_, ?_, ?_⟩
  · rw [range_flatMap_decomp f h2, List.append_assoc]
  · exact List.mem_flatMap.mpr ⟨t1, List.mem_range.mpr h12, ha⟩
  · exact List.mem_append_left _ hb

/-- Helper for C8: precedence inside one tick's block lifts to the whole
trace. -/
theorem precedes_flatMap_same (f : Nat → List Ev) {n t : Nat} {a b : Ev}
    (ht : t < n) (h : Precedes (f t) a b) :
    Precedes ((List.range n).flatMap f) a b := by
  obtain ⟨x1, x2, hx, ha, hb⟩ := h
  refine ⟨(List.range t).flatMap f ++ x1,
    x2 ++ ((List.range (n - t - 1)).map (fun i => t + 1 + i)).flatMap f, ?_, ?_, ?_⟩
  · rw [range_flatMap_decomp f ht, hx]
    simp [List.append_assoc]
  · exact List.mem_append_right _ ha
  · exact List.mem_append_left _ hb

/-- Claim C8: in the Manager's event trace, every producer publishes its tick
`t` outputs before the Broker's tick `t` routing pass starts, every delivery
of tick `t` buffers happens after every tick `t` publication, and a module
only starts computing tick `t+1` after its tick `t` inputs were delivered. -/
theorem c8_barrier_ordering (ids : List ModId) (n : Nat) (ma mb : ModId) (t : Nat)
    (hma : ma ∈ ids) (hmb : mb ∈ ids) :
    (t < n → Precedes (managerTrace ids n) (Ev.published ma t) (Ev.routeStart t)) ∧
    (t < n → Precedes (managerTrace ids n) (Ev.published ma t) (Ev.delivered mb t)) ∧
    (t + 1 < n →
      Precedes (managerTrace ids n) (Ev.delivered ma t) (Ev.stepStart ma (t + 1))) := by
  refine ⟨fun ht => ?_, fun ht => ?_, fun ht => ?_⟩
  · unfold managerTrace
    apply precedes_flatMap_same _ ht
    refine ⟨ids.map (fun m => Ev.stepStart m t) ++ ids.map (fun m => Ev.published m t),
      Ev.barrier t :: Ev.routeStart t :: ids.map (fun m => Ev.delivered m t), ?_, ?_, ?_⟩
    · simp [tickTrace]
    · exact List.mem_append_right _ (List.mem_map_of_mem _ hma)
    · exact List.mem_cons_of_mem _ (List.mem_cons_self _ _)
  · unfold managerTrace
    apply precedes_flatMap_same _ ht
    refine ⟨ids.map (fun m => Ev.stepStart m t) ++ ids.map (fun m => Ev.published m t),
      Ev.barrier t :: Ev.routeStart t :: ids.map (fun m => Ev.delivered m t), ?_, ?_, ?_⟩
    · simp [tickTrace]
    · exact List.mem_append_right _ (List.mem_map_of_mem _ hma)
    · exact List.mem_cons_of_mem _ (List.mem_cons_of_mem _ (List.mem_map_of_mem _ hmb))
  · unfold managerTrace
    apply precedes_flatMap_lt _ (Nat.lt_succ_self t) ht
    · simp [tickTrace, hma]
    · simp [tickTrace, hma]

/-- Witness for C8: the orderings at a concrete one-module two-tick trace. -/
theorem c8_barrier_ordering_witness :
    Precedes (managerTrace ["M"] 2) (Ev.published "M" 0) (Ev.routeStart 0) ∧
    Precedes (managerTrace ["M"] 2) (Ev.published "M" 0) (Ev.delivered "M" 0) ∧
    Precedes (managerTrace ["M"] 2) (Ev.delivered "M" 0) (Ev.stepStart "M" 1) :=
  ⟨(c8_barrier_ordering ["M"] 2 "M" "M" 0 (by decide) (by decide)).1 (by decide),
   (c8_barrier_ordering ["M"] 2 "M" "M" 0 (by decide) (by decide)).2.1 (by decide),
   (c8_barrier_ordering ["M"] 2 "M" "M" 0 (by decide) (by decide)).2.2 (by decide)⟩

/-- Helper for C3: association-list lookup is invariant under permutation
when the keys are distinct. -/
theorem lookup_perm {β : Type} {l1 l2 : List (ModId × β)} (hp : l1.Perm l2) :
    (l1.map Prod.fst).Nodup → ∀ k, l1.lookup k = l2.lookup k := by
  induction hp with
  | nil =>
    intro _ k
    rfl
  | cons x p ih =>
    intro hnd k
    obtain ⟨x1, x2⟩ := x
    rw [List.map_cons] at hnd
    simp only [List.lookup]
    cases hkx : k == x1 with
    | true => rfl
    | false => exact ih (List.nodup_cons.mp hnd).2 k
  | swap x y l =>
    intro hnd k
    obtain ⟨x1, x2⟩ := x
    obtain ⟨y1, y2⟩ := y
    have hxy : y1 ≠ x1 := by
      rw [List.map_cons, List.map_cons, List.nodup_cons] at hnd
      intro h
      exact hnd.1 (h ▸ List.mem_cons_self _ _)
    simp only [List.lookup]
    cases hky : k == y1 with
    | true =>
      cases hkx : k == x1 with
      | true =>
        exact absurd ((eq_of_beq hky).symm.trans (eq_of_beq hkx)) hxy
      | false => rfl
    | false =>
      cases hkx : k == x1 with
      | true => rfl
      | false => rfl
  | trans p1 p2 ih1 ih2 =>
    intro hnd k
    rw [ih1 hnd k, ih2 (((p1.map Prod.fst).nodup_iff).mp hnd) k]

/-- Helper for C3: one tick is invariant under permuting the schedule of the
parallel cohort: every observable of the tick reads the published outputs
through key-based lookup and the module ids are distinct. -/
theorem tickOrd_perm {σ : Type} (cfg : SimConfig σ) (ord1 ord2 : List (ModuleDef σ))
    (F : ModId → Nat → Bool) (t : Nat) (st : SimState σ)
    (hp : ord1.Perm ord2) (hnd : (ord1.map (fun m => m.id)).Nodup) :
    tickOrd cfg ord1 F t st = tickOrd cfg ord2 F t st := by
  have houts : ∀ k, (outsOf cfg ord1 F t st).lookup k = (outsOf cfg ord2 F t st).lookup k := by
    have hpo : (outsOf cfg ord1 F t st).Perm (outsOf cfg ord2 F t st) := by
      unfold outsOf
      exact hp.map _
    refine lookup_perm hpo ?_
    have : (outsOf cfg ord1 F t st).map Prod.fst = ord1.map (fun m => m.id) := by
      simp [outsOf, List.map_map, Function.comp]
    rw [this]
    exact hnd
  simp only [tickOrd, houts]

/-- Helper for C3: a whole run is invariant under per-tick permutations of
the schedule. -/
theorem runAux_perm {σ : Type} (cfg : SimConfig σ)
    (ords1 ords2 : Nat → List (ModuleDef σ)) (F : ModId → Nat → Bool)
    (hnd : (cfg.mods.map (fun m => m.id)).Nodup)
    (h1 : ∀ s, (ords1 s).Perm cfg.mods) (h2 : ∀ s, (ords2 s).Perm cfg.mods) :
    ∀ (n t : Nat) (st : SimState σ),
      runAux cfg ords1 F t n st = runAux cfg ords2 F t n st := by
  intro n
  induction n with
  | zero =>
    intro t st
    rfl
  | succ k ih =>
    intro t st
    have htick : tickOrd cfg (ords1 t) F t st = tickOrd cfg (ords2 t) F t st := by
      refine tickOrd_perm cfg (ords1 t) (ords2 t) F t st ((h1 t).trans (h2 t).symm) ?_
      exact (((h1 t).map (fun m => m.id)).nodup_iff).mpr hnd
    simp only [runAux]
    rw [htick, ih]

/-- Claim C3: two-run determinism — two runs of the same frozen configuration
and stimulus for `k` ticks produce identical recorded outputs, whatever
per-tick schedules (permutations of the registered modules, standing for the
parallel execution order) each run happens to use. -/
theorem c3_two_run_determinism {σ : Type} (cfg : SimConfig σ)
    (ords1 ords2 : Nat → List (ModuleDef σ)) (k : Nat)
    (hnd : (cfg.mods.map (fun m => m.id)).Nodup)
    (h1 : ∀ s, (ords1 s).Perm cfg.mods) (h2 : ∀ s, (ords2 s).Perm cfg.mods) :
    (runAux cfg ords1 noFaults 1 k (initState cfg)).2 =
      (runAux cfg ords2 noFaults 1 k (initState cfg)).2 := by
  rw [runAux_perm cfg ords1 ords2 noFaults hnd h1 h2 k 1 (initState cfg)]

/-- Witness for C3: the example configuration run twice for 2 ticks, the
second run stepping its modules in the opposite order, records identical
outputs. -/
theorem c3_two_run_determinism_witness :
    (runAux cfgC1 (fun _ => [modA, modB]) noFaults 1 2 (initState cfgC1)).2 =
      (runAux cfgC1 (fun _ => [modB, modA]) noFaults 1 2 (initState cfgC1)).2 :=
  c3_two_run_determinism cfgC1 (fun _ => [modA, modB]) (fun _ => [modB, modA]) 2
    (by decide) (fun _ => List.Perm.refl _) (fun _ => List.Perm.swap modA modB [])

/-- Helper for C6: a run of `n + m` ticks is the run of the first `n` ticks
followed by a run of `m` ticks from the reached state, with the records
concatenated. -/
theorem runAux_add {σ : Type} (cfg : SimConfig σ) (ords : Nat → List (ModuleDef σ))
    (F : ModId → Nat → Bool) (m2 : Nat) :
    ∀ (n t : Nat) (st : SimState σ),
      runAux cfg ords F t (n + m2) st =
        ((runAux cfg ords F (t + n) m2 (runAux cfg ords F t n st).1).1,
         (runAux cfg ords F t n st).2 ++
           (runAux cfg ords F (t + n) m2 (runAux cfg ords F t n st).1).2) := by
  intro n
  induction n with
  | zero =>
    intro t st
    simp [runAux]
  | succ k ih =>
    intro t st
    have harith1 : k + 1 + m2 = (k + m2) + 1 := by omega
    rw [harith1]
    simp only [runAux]
    rw [ih (t + 1) (tickOrd cfg (ords t) F t st).1]
    have harith2 : t + 1 + k = t + (k + 1) := by omega
    simp only [harith2, List.cons_append]

/-- Helper for C6: a run of `n` ticks records exactly `n` tick records. -/
theorem runAux_length {σ : Type} (cfg : SimConfig σ) (ords : Nat → List (ModuleDef σ))
    (F : ModId → Nat → Bool) :
    ∀ (n t : Nat) (st : SimState σ), ((runAux cfg ords F t n st).2).length = n := by
  intro n
  induction n with
  | zero =>
    intro t st
    rfl
  | succ k ih =>
    intro t st
    simp only [runAux, List.length_cons, ih]

/-- Helper for C6: a tick only reads the fault injection at its own tick
number. -/
theorem tickOrd_congrF {σ : Type} (cfg : SimConfig σ) (ord : List (ModuleDef σ))
    (F G : ModId → Nat → Bool) (t : Nat) (st : SimState σ)
    (h : ∀ i, F i t = G i t) :
    tickOrd cfg ord F t st = tickOrd cfg ord G t st := by
  have houts : outsOf cfg ord F t st = outsOf cfg ord G t st := by
    unfold outsOf
    apply List.map_congr_left
    intro m _
    unfold moduleOut
    rw [h m.id]
  have hfilt : cfg.mods.filter (fun m => F m.id t) = cfg.mods.filter (fun m => G m.id t) := by
    apply List.filter_congr
    intro m _
    rw [h m.id]
  simp only [tickOrd, houts, hfilt]

/-- Helper for C6: runs under fault injections that agree on the covered tick
range coincide. -/
theorem runAux_congrF {σ : Type} (cfg : SimConfig σ) (ords : Nat → List (ModuleDef σ))
    (F G : ModId → Nat → Bool) :
    ∀ (n t : Nat) (st : SimState σ),
      (∀ i s, t ≤ s → s < t + n → F i s = G i s) →
      runAux cfg ords F t n st = runAux cfg ords G t n st := by
  intro n
  induction n with
  | zero =>
    intro t st _
    rfl
  | succ k ih =>
    intro t st h
    have htick : tickOrd cfg (ords t) F t st = tickOrd cfg (ords t) G t st :=
      tickOrd_congrF cfg (ords t) F G t st (fun i => h i t (le_refl t) (by omega))
    simp only [runAux]
    rw [htick, ih (t + 1) (tickOrd cfg (ords t) G t st).1
      (fun i s hs1 hs2 => h i s (by omega) (by omega))]

/-- Helper for C6: looking up a module's entry in an id-keyed map over the
registry hits that module when ids are distinct. -/
theorem lookup_map_mods {σ : Type} {β : Type} (f : ModuleDef σ → β) :
    ∀ (mods : List (ModuleDef σ)), (mods.map (fun m => m.id)).Nodup →
      ∀ m ∈ mods, (mods.map (fun x => (x.id, f x))).lookup m.id = some (f m) := by
  intro mods
  induction mods with
  | nil =>
    intro _ m hm
    exact absurd hm (List.not_mem_nil m)
  | cons a l ih =>
    intro hnd m hm
    rw [List.map_cons] at hnd
    rw [List.map_cons]
    rcases List.mem_cons.mp hm with h | h
    · subst h
      simp [List.lookup]
    · have hne : ¬(m.id == a.id) = true := by
        intro hbeq
        refine (List.nodup_cons.mp hnd).1 ?_
        rw [← eq_of_beq hbeq]
        exact List.mem_map_of_mem _ h
      simp only [List.lookup]
      cases hbeq : m.id == a.id with
      | true => exact absurd hbeq hne
      | false => exact ih (List.nodup_cons.mp hnd).2 m h

/-- Helper for C6: two id-keyed maps over the same registry whose values
agree away from module `A` look up equal entries at every id other than
`A`. -/
theorem lookup_map_congr_ne {σ : Type} {β : Type} (g1 g2 : ModuleDef σ → β) (A : ModId) :
    ∀ (ord : List (ModuleDef σ)), (∀ m ∈ ord, m.id ≠ A → g1 m = g2 m) →
      ∀ i, i ≠ A →
        (ord.map (fun m => (m.id, g1 m))).lookup i =
          (ord.map (fun m => (m.id, g2 m))).lookup i := by
  intro ord
  induction ord with
  | nil =>
    intro _ i _
    rfl
  | cons a l ih =>
    intro h i hi
    rw [List.map_cons, List.map_cons]
    simp only [List.lookup]
    cases hbeq : i == a.id with
    | true =>
      have hia : i = a.id := eq_of_beq hbeq
      have hga : g1 a = g2 a := h a (List.mem_cons_self _ _) (fun he => hi (hia.trans he))
      rw [hga]
    | false => exact ih (fun m hm => h m (List.mem_cons_of_mem _ hm)) i hi

/-- Helper for C6: with distinct ids, filtering the registry for a member's
id finds exactly that member. -/
theorem filter_id_eq {σ : Type} :
    ∀ (mods : List (ModuleDef σ)), (mods.map (fun m => m.id)).Nodup →
      ∀ mA ∈ mods, mods.filter (fun m => decide (m.id = mA.id)) = [mA] := by
  intro mods
  induction mods with
  | nil =>
    intro _ mA hm
    exact absurd hm (List.not_mem_nil mA)
  | cons a l ih =>
    intro hnd mA hm
    rw [List.map_cons] at hnd
    rcases List.mem_cons.mp hm with h | h
    · subst h
      have hrest : l.filter (fun m => decide (m.id = mA.id)) = [] := by
        rw [List.filter_eq_nil_iff]
        intro m hm2 hp
        rw [decide_eq_true_eq] at hp
        refine (List.nodup_cons.mp hnd).1 ?_
        rw [← hp]
        exact List.mem_map_of_mem _ hm2
      rw [List.filter_cons]
      simp [hrest]
    · have hne : a.id ≠ mA.id := by
        intro he
        refine (List.nodup_cons.mp hnd).1 ?_
        rw [he]
        exact List.mem_map_of_mem _ h
      rw [List.filter_cons]
      simp only [decide_eq_true_eq, hne, if_false]
      exact ih (List.nodup_cons.mp hnd).2 mA h

/-- Helper for C6: at the fault tick itself, the recorded outputs of every
module other than the faulting one are unchanged, the faulting module's
recorded output is the empty/zero payload, and the fault is reported. -/
theorem tick_fault_compare {σ : Type} (cfg : SimConfig σ) (A : ModId) (t : Nat)
    (st : SimState σ) (mA : ModuleDef σ)
    (hnd : (cfg.mods.map (fun m => m.id)).Nodup)
    (hA : mA ∈ cfg.mods) (hAid : mA.id = A) :
    (∀ i, i ≠ A →
      ((tickOrd cfg cfg.mods (fun m2 s => decide (m2 = A ∧ s = t)) t st).2).outs.lookup i =
        ((tickOrd cfg cfg.mods noFaults t st).2).outs.lookup i) ∧
    ((tickOrd cfg cfg.mods (fun m2 s => decide (m2 = A ∧ s = t)) t st).2).outs.lookup A =
      some (List.replicate mA.nGpot 0, []) ∧
    ((tickOrd cfg cfg.mods (fun m2 s => decide (m2 = A ∧ s = t)) t st).2).faults = [A] := by
  have hout_ne : ∀ m ∈ cfg.mods, m.id ≠ A →
      moduleOut cfg (fun m2 s => decide (m2 = A ∧ s = t)) t st m =
        moduleOut cfg noFaults t st m := by
    intro m _ hm
    simp [moduleOut, noFaults, hm]
  have hlook_ne : ∀ i, i ≠ A →
      (outsOf cfg cfg.mods (fun m2 s => decide (m2 = A ∧ s = t)) t st).lookup i =
        (outsOf cfg cfg.mods noFaults t st).lookup i := by
    intro i hi
    unfold outsOf
    exact lookup_map_congr_ne _ _ A cfg.mods hout_ne i hi
  have hlookA :
      (outsOf cfg cfg.mods (fun m2 s => decide (m2 = A ∧ s = t)) t st).lookup A =
        some (List.replicate mA.nGpot 0, [],
          (st.states mA.id).getD mA.init) := by
    unfold outsOf
    have := lookup_map_mods (moduleOut cfg (fun m2 s => decide (m2 = A ∧ s = t)) t st)
      cfg.mods hnd mA hA
    rw [hAid] at this
    rw [this]
    have hfault : moduleOut cfg (fun m2 s => decide (m2 = A ∧ s = t)) t st mA =
        (List.replicate mA.nGpot 0, [], (st.states mA.id).getD mA.init) := by
      simp [moduleOut, hAid]
    rw [hfault]
  refine ⟨?_, ?_, ?_⟩
  · intro i hi
    simp only [tickOrd]
    exact lookup_map_congr_ne
      (fun m => ((((outsOf cfg cfg.mods (fun m2 s => decide (m2 = A ∧ s = t)) t st).lookup
          m.id).map (fun o => o.1)).getD [],
        (((outsOf cfg cfg.mods (fun m2 s => decide (m2 = A ∧ s = t)) t st).lookup
          m.id).map (fun o => o.2.1)).getD []))
      (fun m => ((((outsOf cfg cfg.mods noFaults t st).lookup m.id).map
          (fun o => o.1)).getD [],
        (((outsOf cfg cfg.mods noFaults t st).lookup m.id).map (fun o => o.2.1)).getD []))
      A cfg.mods
      (fun m _ hm => by simp only [hlook_ne m.id hm]) i hi
  · simp only [tickOrd]
    have := lookup_map_mods
      (fun m => ((((outsOf cfg cfg.mods (fun m2 s => decide (m2 = A ∧ s = t)) t st).lookup
          m.id).map (fun o => o.1)).getD [],
        (((outsOf cfg cfg.mods (fun m2 s => decide (m2 = A ∧ s = t)) t st).lookup
          m.id).map (fun o => o.2.1)).getD []))
      cfg.mods hnd mA hA
    rw [hAid] at this
    rw [this]
    simp only [hAid, hlookA]
    simp
  · show (List.map (fun m => m.id)
      (List.filter (fun m => decide (m.id = A ∧ t = t)) cfg.mods)) = [A]
    have hfc : cfg.mods.filter (fun m => decide (m.id = A ∧ t = t)) =
        cfg.mods.filter (fun m => decide (m.id = mA.id)) := by
      apply List.filter_congr
      intro m _
      simp [hAid]
    rw [hfc, filter_id_eq cfg.mods hnd mA hA]
    simp [hAid]

/-- Helper for C6: the record of tick `t` in a `k`-tick run is the record of
one tick taken from the state reached after the first `t - 1` ticks. -/
theorem run_record_at {σ : Type} (cfg : SimConfig σ) (G : ModId → Nat → Bool)
    (t k : Nat) (ht : 1 ≤ t) (htk : t ≤ k) :
    (run cfg G k).2[t - 1]? =
      some ((tickOrd cfg cfg.mods G t
        ((runAux cfg (fun _ => cfg.mods) G 1 (t - 1) (initState cfg)).1)).2) := by
  simp only [run]
  have hk : k = (t - 1) + (k - t + 1) := by omega
  have hlen : ((runAux cfg (fun _ => cfg.mods) G 1 (t - 1) (initState cfg)).2).length = t - 1 :=
    runAux_length cfg (fun _ => cfg.mods) G (t - 1) 1 (initState cfg)
  have hrecs : (runAux cfg (fun _ => cfg.mods) G 1 ((t - 1) + (k - t + 1)) (initState cfg)).2 =
      (runAux cfg (fun _ => cfg.mods) G 1 (t - 1) (initState cfg)).2 ++
        (runAux cfg (fun _ => cfg.mods) G (1 + (t - 1)) (k - t + 1)
          ((runAux cfg (fun _ => cfg.mods) G 1 (t - 1) (initState cfg)).1)).2 := by
    rw [runAux_add cfg (fun _ => cfg.mods) G (k - t + 1) (t - 1) 1 (initState cfg)]
  rw [hk, hrecs, List.getElem?_append_right (le_of_eq hlen), hlen, Nat.sub_self]
  have h1t : 1 + (t - 1) = t := by omega
  rw [h1t]
  simp only [runAux, List.getElem?_cons_zero]

/-- Claim C6: injecting a fault in module A's `step` at tick `t` (A and B
unconnected) leaves B's recorded output for tick `t` identical to the
fault-free run's; A's own tick `t` output is recorded as the empty/zero
payload and the fault is reported to the Manager for that tick. -/
theorem c6_fault_isolation {σ : Type} (cfg : SimConfig σ) (A B : ModId)
    (mA mB : ModuleDef σ) (t k : Nat)
    (hnd : (cfg.mods.map (fun m => m.id)).Nodup)
    (hA : mA ∈ cfg.mods) (hAid : mA.id = A)
    (hB : mB ∈ cfg.mods) (hBid : mB.id = B) (hBA : B ≠ A)
    (hnoconn : ∀ e ∈ cfg.cm, ¬(e.src = A ∧ e.dst = B) ∧ ¬(e.src = B ∧ e.dst = A))
    (ht : 1 ≤ t) (htk : t ≤ k) :
    ((run cfg (fun m2 s => decide (m2 = A ∧ s = t)) k).2[t - 1]?.map
        (fun r => r.outs.lookup B)) =
      ((run cfg noFaults k).2[t - 1]?.map (fun r => r.outs.lookup B)) ∧
    ((run cfg (fun m2 s => decide (m2 = A ∧ s = t)) k).2[t - 1]?.map
        (fun r => r.outs.lookup A)) = some (some (List.replicate mA.nGpot 0, [])) ∧
    ((run cfg (fun m2 s => decide (m2 = A ∧ s = t)) k).2[t - 1]?.map
        (fun r => r.faults)) = some [A] := by
  have hpre : runAux cfg (fun _ => cfg.mods) (fun m2 s => decide (m2 = A ∧ s = t)) 1
      (t - 1) (initState cfg) =
      runAux cfg (fun _ => cfg.mods) noFaults 1 (t - 1) (initState cfg) := by
    apply runAux_congrF
    intro i s hs1 hs2
    have hst : s ≠ t := by omega
    simp [noFaults, hst]
  have hrF := run_record_at cfg (fun m2 s => decide (m2 = A ∧ s = t)) t k ht htk
  have hr0 := run_record_at cfg noFaults t k ht htk
  rw [hpre] at hrF
  obtain ⟨hne, hAout, hflt⟩ := tick_fault_compare cfg A t
    ((runAux cfg (fun _ => cfg.mods) noFaults 1 (t - 1) (initState cfg)).1) mA hnd hA hAid
  refine ⟨?_, ?_, ?_⟩
  · rw [hrF, hr0]
    simp only [Option.map_some']
    rw [hne B hBA]
  · rw [hrF]
    simp only [Option.map_some']
    rw [hAout]
  · rw [hrF]
    simp only [Option.map_some']
    rw [hflt]

/-- Witness for C6: in the unconnected two-module configuration, a fault
injected into A at tick 1 of a 1-tick run leaves B's recorded output as in
the fault-free run, records A's output as zero/empty, and reports the
fault. -/
theorem c6_fault_isolation_witness :
    ((run cfgC6 (fun m2 s => decide (m2 = "A" ∧ s = 1)) 1).2[0]?.map
        (fun r => r.outs.lookup "B")) =
      ((run cfgC6 noFaults 1).2[0]?.map (fun r => r.outs.lookup "B")) ∧
    ((run cfgC6 (fun m2 s => decide (m2 = "A" ∧ s = 1)) 1).2[0]?.map
        (fun r => r.outs.lookup "A")) = some (some (List.replicate modA.nGpot 0, [])) ∧
    ((run cfgC6 (fun m2 s => decide (m2 = "A" ∧ s = 1)) 1).2[0]?.map
        (fun r => r.faults)) = some ["A"] :=
  c6_fault_isolation cfgC6 "A" "B" modA modB 1 1 (by decide)
    (List.mem_cons_self _ _) rfl (List.mem_cons_of_mem _ (List.mem_cons_self _ _)) rfl
    (by decide) (fun e he => absurd he (List.not_mem_nil e)) (by decide) (by decide)
